import Mathlib

/-!
# Verification of the financial-mgr simulation core

Shallow embedding of the repository's currency, asset, risk and statistics
engines (`src/modules/currency.ts`, `src/modules/assets.ts`, `risk.ts`,
`stats.ts`).  JavaScript numbers are modelled as rationals (`ℚ`); the
JavaScript expressions `x.toFixed(f)` / `parseFloat`, `Math.round`,
division (whose zero-denominator case yields `NaN`), array out-of-bounds
access (`undefined`, and the `TypeError` crash of reading a property of
`undefined`) are modelled explicitly below.  Fallible operations return
`Except`/`Option`.
-/

namespace FinancialMgr

/-- `parseFloat(q.toFixed(f))` for a finite number `q` — rounds to `f`
decimal places, half away from zero (ECMA-262 `Number.prototype.toFixed`:
negative numbers are formatted as `-` followed by `toFixed` of the
absolute value; ties pick the larger candidate). -/
def jsToFixed (f : ℕ) (q : ℚ) : ℚ :=
  if q < 0 then -((⌊-q * 10 ^ f + 1 / 2⌋ : ℤ) : ℚ) / 10 ^ f
  else ((⌊q * 10 ^ f + 1 / 2⌋ : ℤ) : ℚ) / 10 ^ f

/-- JavaScript division restricted to the cases the sources reach: a zero
denominator produces a non-finite result (`0/0 = NaN`), modelled as
`none`; otherwise the exact quotient. -/
def jsDivQ (a b : ℚ) : Option ℚ := if b = 0 then none else some (a / b)

/-- `Math.round` : round half up. -/
def jsRound (q : ℚ) : ℤ := ⌊q + 1 / 2⌋

/-! ## CurrencyEngine (`src/modules/currency.ts`)

The exchange-rate table is the engine's `exchangeRates` field minus its
`timestamp` entry: an association from `"FROM/TO"` keys to rates.  The
source guards `pair !== "timestamp"` are vacuous — a pair key always
contains `"/"` — so membership in the modelled table coincides with the
source's `pair in this.exchangeRates && pair !== "timestamp"`. -/

/-- A snapshot of `exchangeRates` (rate entries only). -/
abbrev RateTable := List (String × ℚ)

/-- The template string `` `${fromCurrency}/${toCurrency}` ``. -/
def pairKey (fromCurrency toCurrency : String) : String :=
  fromCurrency ++ "/" ++ toCurrency

/-- The loop body of `getIndirectRate`, running over the remaining
intermediaries. -/
def tryIntermediaries (rates : RateTable) (fromCurrency toCurrency : String) :
    List String → Option ℚ
  | [] => none
  | inter :: rest =>
    if inter = fromCurrency ∨ inter = toCurrency then
      tryIntermediaries rates fromCurrency toCurrency rest
    else
      match List.lookup (pairKey fromCurrency inter) rates,
            List.lookup (pairKey inter toCurrency) rates with
      | some r1, some r2 => some (r1 * r2)
      | _, _ => tryIntermediaries rates fromCurrency toCurrency rest

/-- `CurrencyEngine.getIndirectRate`: one-hop path search through the
intermediaries `["USD", "EUR"]`, in that order. -/
def getIndirectRate (rates : RateTable) (fromCurrency toCurrency : String) : Option ℚ :=
  tryIntermediaries rates fromCurrency toCurrency ["USD", "EUR"]

/-- `CurrencyEngine.convert`.  The thrown
`` Error(`No exchange rate found for ${pair}`) `` is modelled as
`Except.error` carrying the message. -/
def convert (rates : RateTable) (amount : ℚ) (fromCurrency toCurrency : String) :
    Except String ℚ :=
  if fromCurrency = toCurrency then .ok (jsToFixed 6 amount)
  else
    match List.lookup (pairKey fromCurrency toCurrency) rates with
    | some rate => .ok (jsToFixed 6 (amount * rate))
    | none =>
      match List.lookup (pairKey toCurrency fromCurrency) rates with
      | some r => .ok (jsToFixed 6 (amount * (1 / r)))
      | none =>
        match getIndirectRate rates fromCurrency toCurrency with
        | some rate => .ok (jsToFixed 6 (amount * rate))
        | none => .error ("No exchange rate found for " ++ pairKey fromCurrency toCurrency)

/-- The rate table installed by the `CurrencyEngine` constructor. -/
def defaultRates : RateTable :=
  [("USD/EUR", 92 / 100), ("USD/GBP", 79 / 100), ("USD/PKR", 2785 / 10),
   ("EUR/GBP", 86 / 100), ("EUR/PKR", 3027 / 10), ("GBP/PKR", 3512 / 10)]

/-! ## Data model (`src/modules/types.ts`)

`Date` values are modelled as integers (epoch milliseconds); a
JavaScript string-union type becomes a plain `String`. -/

structure Asset where
  id : String
  name : String
  amount : ℚ
  currency : String
  volatility : ℚ
  liquidityClass : String
  lockedUntil : Option ℤ := none
  baseValue : Option ℚ := none
deriving DecidableEq

structure Liability where
  id : String
  type : String
  principalBalance : ℚ
  interestRate : ℚ
  currency : String
  minimumPayment : Option ℚ := none
  createdAt : ℤ := 0
deriving DecidableEq

structure DailyRecord where
  day : ℚ
  balance : ℚ
  creditScore : ℚ
  assets : List Asset
  vibeScore : ℚ
  collapsedFlag : Bool
deriving DecidableEq

structure WalletState where
  date : ℤ
  balance : ℚ
  assets : List Asset
  liabilities : List Liability
  creditScore : ℚ
  dayNumber : ℚ
  history : List DailyRecord
deriving DecidableEq

/-! ## AssetEngine (`src/modules/assets.ts`) -/

/-- The `liquidationPenalty` table of `AssetEngine`.  `liquidateForDeficit`
only ever looks up the four keys of `liquidityOrder`, so the fallback
value is never observed there. -/
def liquidationPenalty (liquidityClass : String) : ℚ :=
  if liquidityClass = "liquid" then 0
  else if liquidityClass = "yield" then 2 / 100
  else if liquidityClass = "volatile" then 5 / 100
  else if liquidityClass = "illiquid" then 1 / 10
  else 0

/-- `AssetEngine.isAssetLocked`. -/
def isAssetLocked (asset : Asset) (currentDate : ℤ) : Bool :=
  match asset.lockedUntil with
  | none => false
  | some lockedUntil => currentDate < lockedUntil

/-! ### Seeded random number generator (`AssetEngine.seededRNG`)

The generator is a multiply-with-carry scheme over JavaScript's 32-bit
integer coercions: `x & 65535` takes the low 16 bits of `ToInt32(x)`,
`x >> 16` is an arithmetic (sign-extending) right shift of `ToInt32(x)`,
`x & 0xffffffff` is `ToInt32(x)` itself, `x << 16` wraps to a signed
32-bit result and `x >>> 0` is `ToUint32(x)`.  All intermediate products
are small enough to be exact in a 64-bit float. -/

def toUint32 (n : ℤ) : ℤ := n.emod 4294967296

def toInt32 (n : ℤ) : ℤ :=
  let u := n.emod 4294967296
  if u < 2147483648 then u else u - 4294967296

/-- `x & 65535`: the low 16 bits of the two's-complement 32-bit value. -/
def jsAnd16 (n : ℤ) : ℤ := (toInt32 n).emod 65536

/-- `x >> 16`: arithmetic shift, i.e. floor division of `ToInt32(x)`. -/
def jsShr16 (n : ℤ) : ℤ := Int.fdiv (toInt32 n) 65536

/-- `x << 16` on a 32-bit value, wrapping to a signed 32-bit result. -/
def jsShl16 (n : ℤ) : ℤ := toInt32 (toInt32 n * 65536)

/-- One call of the closure returned by `seededRNG`: updates `m_z` and
`m_w` and produces a uniform draw in `[0, 1)`. -/
def mwcNext (st : ℤ × ℤ) : ℚ × (ℤ × ℤ) :=
  let mz := toInt32 (36969 * jsAnd16 st.1 + jsShr16 st.1)
  let mw := toInt32 (18000 * jsAnd16 st.2 + jsShr16 st.2)
  let result : ℚ := ((toUint32 (jsShl16 mz + jsAnd16 mw) : ℤ) : ℚ) / 4294967296
  (result, (mz, mw))

/-- The generator state after `n` draws from initial state
`(m_z, m_w) = (987654321, seed)`. -/
def mwcIter : ℕ → ℤ × ℤ → ℤ × ℤ
  | 0, st => st
  | n + 1, st => mwcIter n (mwcNext st).2

/-- The `n`-th (0-based) output of the generator seeded with `seed`. -/
def rngOut (seed : ℤ) (n : ℕ) : ℚ :=
  (mwcNext (mwcIter n (987654321, seed))).1

/-- The `assets.map` loop of `revalueAssets`, threading the generator
state through the assets in array order. -/
def revalueGo : ℤ × ℤ → List Asset → List Asset
  | _, [] => []
  | st, asset :: rest =>
    let (r, st') := mwcNext st
    let shock := r * asset.volatility * 2 - asset.volatility
    let newAmount := max 0 (asset.amount * (1 + shock))
    { asset with amount := jsToFixed 6 newAmount } :: revalueGo st' rest

/-- `AssetEngine.revalueAssets`. -/
def revalueAssets (assets : List Asset) (seed : ℤ) : List Asset :=
  revalueGo (987654321, seed) assets

/-! ### Liquidation waterfall (`AssetEngine.liquidateForDeficit`)

The source deep-copies the input (`JSON.parse(JSON.stringify(assets))`)
and then, for each liquidity class in `liquidityOrder`, walks the assets
of that class (`updatedAssets.filter(...)` preserves array order, and the
filtered elements alias the copies, so mutating them in filtered order is
mutating the full array in order), selling
`min(asset.amount, remainingDeficit)` units from each until the deficit
is covered.  `convert` can throw, so the whole computation is
`Except`-valued. -/

def liquidityOrder : List String := ["liquid", "yield", "volatile", "illiquid"]

/-- The inner `for (const asset of classAssets)` loop: scans the full
asset list once, selling from assets of class `cls` while the deficit
remains positive (`break` leaves the remaining assets untouched). -/
def sellClass (rates : RateTable) (cls : String) : ℚ → List Asset → Except String (ℚ × List Asset)
  | remaining, [] => .ok (remaining, [])
  | remaining, a :: rest =>
    if a.liquidityClass = cls then
      if remaining ≤ 0 then .ok (remaining, a :: rest)
      else
        match convert rates (min a.amount remaining) a.currency "USD" with
        | .error e => .error e
        | .ok proceedsBeforePenalty =>
          let sellAmount := min a.amount remaining
          let proceeds := proceedsBeforePenalty * (1 - liquidationPenalty cls)
          match sellClass rates cls (remaining - proceeds) rest with
          | .error e => .error e
          | .ok (r, l) => .ok (r, { a with amount := a.amount - sellAmount } :: l)
    else
      match sellClass rates cls remaining rest with
      | .error e => .error e
      | .ok (r, l) => .ok (r, a :: l)

/-- The outer `for (const liquidityClass of liquidityOrder)` loop and the
final `return` (which clamps the remaining deficit at `0`). -/
def liquidateClasses (rates : RateTable) : List String → ℚ → List Asset → Except String (ℚ × List Asset)
  | [], remaining, l => .ok (max 0 remaining, l)
  | cls :: restCls, remaining, l =>
    if remaining ≤ 0 then .ok (max 0 remaining, l)
    else
      match sellClass rates cls remaining l with
      | .error e => .error e
      | .ok (r, l') => liquidateClasses rates restCls r l'

/-- The `JSON.parse(JSON.stringify(assets))` deep copy: a structurally
identical, freshly allocated list.  In the pure model the copy is equal
to the original (`deepCopy_eq`), which is exactly why the caller's list
is unaffected by the mutations performed on the copy. -/
def deepCopy (assets : List Asset) : List Asset :=
  assets.map fun a =>
    Asset.mk a.id a.name a.amount a.currency a.volatility a.liquidityClass a.lockedUntil a.baseValue

/-- `AssetEngine.liquidateForDeficit`. -/
def liquidateForDeficit (rates : RateTable) (assets : List Asset) (deficitAmount : ℚ) :
    Except String (ℚ × List Asset) :=
  liquidateClasses rates liquidityOrder deficitAmount (deepCopy assets)

theorem deepCopy_eq (assets : List Asset) : deepCopy assets = assets :=
  List.map_id assets

/-! ### Liquidation lemmas -/

/-- Selling a class never yields a negative remaining value spontaneously:
whatever `liquidateClasses` returns through its final `Math.max(0, ·)` is
non-negative. -/
theorem liquidateClasses_ok_nonneg (rates : RateTable) (cls : List String) (rem : ℚ)
    (l : List Asset) (r : ℚ) (out : List Asset)
    (h : liquidateClasses rates cls rem l = .ok (r, out)) : 0 ≤ r := by
  induction cls generalizing rem l with
  | nil =>
    simp only [liquidateClasses] at h
    cases h
    exact le_max_left 0 rem
  | cons c rest ih =>
    simp only [liquidateClasses] at h
    split at h
    · cases h
      exact le_max_left 0 rem
    · split at h
      · exact absurd h (by simp)
      · exact ih _ _ h

/-- `sellClass` keeps every asset quantity non-negative: a processed
asset ends at `amount - min(amount, remaining) ≥ 0`, an untouched asset
keeps its (non-negative) input quantity. -/
theorem sellClass_nonneg (rates : RateTable) (cls : String) (rem : ℚ) (l : List Asset)
    (r : ℚ) (out : List Asset) (hl : ∀ a ∈ l, 0 ≤ a.amount)
    (h : sellClass rates cls rem l = .ok (r, out)) : ∀ a ∈ out, 0 ≤ a.amount := by
  induction l generalizing rem r out with
  | nil =>
    simp only [sellClass] at h
    cases h
    simp
  | cons a rest ih =>
    simp only [sellClass] at h
    split at h
    · split at h
      · cases h
        exact hl
      · split at h
        · exact absurd h (by simp)
        · split at h
          · exact absurd h (by simp)
          · rename_i heq
            cases h
            intro b hb
            rcases List.mem_cons.mp hb with hb | hb
            · subst hb
              exact sub_nonneg.mpr (min_le_left _ _)
            · exact ih _ _ _ (fun x hx => hl x (List.mem_cons_of_mem _ hx)) heq b hb
    · split at h
      · exact absurd h (by simp)
      · rename_i heq
        cases h
        intro b hb
        rcases List.mem_cons.mp hb with hb | hb
        · subst hb
          exact hl _ (List.mem_cons_self _ _)
        · exact ih _ _ _ (fun x hx => hl x (List.mem_cons_of_mem _ hx)) heq b hb

/-- Non-negativity of quantities is preserved across the whole class
loop. -/
theorem liquidateClasses_nonneg (rates : RateTable) (cls : List String) (rem : ℚ)
    (l : List Asset) (r : ℚ) (out : List Asset) (hl : ∀ a ∈ l, 0 ≤ a.amount)
    (h : liquidateClasses rates cls rem l = .ok (r, out)) : ∀ a ∈ out, 0 ≤ a.amount := by
  induction cls generalizing rem l with
  | nil =>
    simp only [liquidateClasses] at h
    cases h
    exact hl
  | cons c rest ih =>
    simp only [liquidateClasses] at h
    split at h
    · cases h
      exact hl
    · split at h
      · exact absurd h (by simp)
      · rename_i r' l' heq
        exact ih _ _ (sellClass_nonneg rates c rem l r' l' hl heq) h

/-! ### The liquidation waterfall as the specification words it

The spec describes the waterfall as one pass over the assets arranged in
strict liquidity-priority order (`liquid → yield → volatile → illiquid`,
array order within a class): each asset in that sequence sells
`min(amount, remainingDeficit)` units, proceeds are converted to USD and
reduced by the penalty of the asset's own class, and the pass stops the
instant the remaining deficit is `≤ 0`.  `specSellInOrder` is that
reference description; the refinement theorem for the claim equates the
source's two nested loops with it. -/

/-- The concatenation of the class-filtered sub-lists for a given class
sequence. -/
def orderedByClasses (cls : List String) (assets : List Asset) : List Asset :=
  (cls.map fun c => assets.filter fun a => decide (a.liquidityClass = c)).flatten

/-- The asset list rearranged into strict liquidity-priority order:
within a class, array order is preserved. -/
def assetsInPriorityOrder (assets : List Asset) : List Asset :=
  orderedByClasses liquidityOrder assets

/-- Modelled from the spec: one ordered selling pass with per-asset
penalties and early stop. -/
def specSellInOrder (rates : RateTable) : ℚ → List Asset → Except String (ℚ × List Asset)
  | remaining, [] => .ok (remaining, [])
  | remaining, a :: rest =>
    if remaining ≤ 0 then .ok (remaining, a :: rest)
    else
      match convert rates (min a.amount remaining) a.currency "USD" with
      | .error e => .error e
      | .ok proceedsBeforePenalty =>
        let sellAmount := min a.amount remaining
        let proceeds := proceedsBeforePenalty * (1 - liquidationPenalty a.liquidityClass)
        match specSellInOrder rates (remaining - proceeds) rest with
        | .error e => .error e
        | .ok (r, l) => .ok (r, { a with amount := a.amount - sellAmount } :: l)

/-- A pass over an exhausted deficit leaves everything untouched. -/
theorem specSellInOrder_nonpos (rates : RateTable) (rem : ℚ) (l : List Asset)
    (h : rem ≤ 0) : specSellInOrder rates rem l = .ok (rem, l) := by
  cases l with
  | nil => rfl
  | cons a rest => simp [specSellInOrder, h]

/-- Selling a concatenated sequence is selling the first part, then the
second from the leftover deficit. -/
theorem specSellInOrder_append (rates : RateTable) (rem : ℚ) (l1 l2 : List Asset) :
    specSellInOrder rates rem (l1 ++ l2) =
      match specSellInOrder rates rem l1 with
      | .error e => .error e
      | .ok (r1, l1') =>
        match specSellInOrder rates r1 l2 with
        | .error e => .error e
        | .ok (r2, l2') => .ok (r2, l1' ++ l2') := by
  induction l1 generalizing rem with
  | nil =>
    simp only [List.nil_append, specSellInOrder]
    cases h : specSellInOrder rates rem l2 with
    | error e => rfl
    | ok p => rfl
  | cons a t ih =>
    by_cases hrem : rem ≤ 0
    · rw [specSellInOrder_nonpos rates rem ((a :: t) ++ l2) hrem,
        specSellInOrder_nonpos rates rem (a :: t) hrem]
      dsimp only
      rw [specSellInOrder_nonpos rates rem l2 hrem]
    · simp only [List.cons_append, specSellInOrder, if_neg hrem, List.append_eq]
      cases hc : convert rates (min a.amount rem) a.currency "USD" with
      | error e => rfl
      | ok pbp =>
        dsimp only
        rw [ih]
        cases h1 : specSellInOrder rates (rem - pbp * (1 - liquidationPenalty a.liquidityClass)) t with
        | error e => rfl
        | ok p1 =>
          obtain ⟨r1, l1a⟩ := p1
          dsimp only
          cases h2 : specSellInOrder rates r1 l2 with
          | error e => rfl
          | ok p2 =>
            obtain ⟨r2, l2a⟩ := p2
            rfl

/-- Through the class filter, one `sellClass` pass is exactly the
spec's ordered pass over that class's assets. -/
theorem sellClass_filter_spec (rates : RateTable) (cls : String) (rem : ℚ) (l : List Asset) :
    (sellClass rates cls rem l).map
        (fun p => (p.1, p.2.filter fun a => decide (a.liquidityClass = cls)))
      = specSellInOrder rates rem (l.filter fun a => decide (a.liquidityClass = cls)) := by
  induction l generalizing rem with
  | nil => rfl
  | cons a rest ih =>
    by_cases ha : a.liquidityClass = cls
    · rw [List.filter_cons_of_pos (by simp [ha])]
      by_cases hrem : rem ≤ 0
      · rw [specSellInOrder_nonpos rates rem _ hrem]
        simp only [sellClass, if_pos ha, if_pos hrem, Except.map]
        rw [List.filter_cons_of_pos (by simp [ha])]
      · simp only [sellClass, if_pos ha, if_neg hrem, specSellInOrder]
        rw [ha]
        cases hc : convert rates (min a.amount rem) a.currency "USD" with
        | error e => rfl
        | ok pbp =>
          dsimp only
          rw [← ih (rem - pbp * (1 - liquidationPenalty cls))]
          cases hs : sellClass rates cls (rem - pbp * (1 - liquidationPenalty cls)) rest with
          | error e => rfl
          | ok p =>
            obtain ⟨r1, l1a⟩ := p
            simp only [Except.map]
            rw [List.filter_cons_of_pos (by simp [ha])]
    · rw [List.filter_cons_of_neg (by simp [ha])]
      simp only [sellClass, if_neg ha]
      cases hs : sellClass rates cls rem rest with
      | error e =>
        rw [← ih rem, hs]
      | ok p =>
        obtain ⟨r1, l1a⟩ := p
        rw [← ih rem, hs]
        simp only [Except.map]
        rw [List.filter_cons_of_neg (by simp [ha])]

/-- `sellClass` for class `cls` only rewrites quantities of class-`cls`
assets: any other class's filtered sub-list is untouched. -/
theorem sellClass_preserves_other (rates : RateTable) (cls : String) (rem : ℚ)
    (l : List Asset) (r : ℚ) (out : List Asset)
    (h : sellClass rates cls rem l = .ok (r, out)) (cls' : String) (hne : cls' ≠ cls) :
    out.filter (fun a => decide (a.liquidityClass = cls'))
      = l.filter (fun a => decide (a.liquidityClass = cls')) := by
  have hccls : ¬(cls = cls') := fun hx => hne hx.symm
  induction l generalizing rem r out with
  | nil =>
    simp only [sellClass] at h
    cases h
    rfl
  | cons a rest ih =>
    simp only [sellClass] at h
    split at h
    · rename_i ha
      split at h
      · cases h
        rfl
      · split at h
        · exact absurd h (by simp)
        · split at h
          · exact absurd h (by simp)
          · rename_i heq
            cases h
            rw [List.filter_cons_of_neg (by simp [ha, hccls]),
              List.filter_cons_of_neg (by simp [ha, hccls])]
            exact ih _ _ _ heq
    · rename_i ha
      split at h
      · exact absurd h (by simp)
      · rename_i heq
        cases h
        by_cases ha' : a.liquidityClass = cls'
        · rw [List.filter_cons_of_pos (by simp [ha']), List.filter_cons_of_pos (by simp [ha'])]
          rw [ih _ _ _ heq]
        · rw [List.filter_cons_of_neg (by simp [ha']), List.filter_cons_of_neg (by simp [ha'])]
          exact ih _ _ _ heq

/-- Classes not in the remaining class list are untouched by the rest of
the loop. -/
theorem liquidateClasses_preserves_other (rates : RateTable) (cls : List String) (rem : ℚ)
    (l : List Asset) (r : ℚ) (out : List Asset) (c : String) (hc : c ∉ cls)
    (h : liquidateClasses rates cls rem l = .ok (r, out)) :
    out.filter (fun a => decide (a.liquidityClass = c))
      = l.filter (fun a => decide (a.liquidityClass = c)) := by
  induction cls generalizing rem l with
  | nil =>
    simp only [liquidateClasses] at h
    cases h
    rfl
  | cons c0 rest ih =>
    simp only [liquidateClasses] at h
    split at h
    · cases h
      rfl
    · split at h
      · exact absurd h (by simp)
      · rename_i r' l' heq
        have hcrest : c ∉ rest := fun hx => hc (List.mem_cons_of_mem _ hx)
        have hcc0 : c ≠ c0 := fun hx => hc (hx ▸ List.mem_cons_self _ _)
        rw [ih _ _ hcrest h, sellClass_preserves_other rates c0 rem l r' l' heq c hcc0]

/-- If two lists agree on every class filter of `cls`, their
`orderedByClasses cls` agree. -/
theorem orderedByClasses_congr (cls : List String) (l l' : List Asset)
    (h : ∀ c ∈ cls, l'.filter (fun a => decide (a.liquidityClass = c))
        = l.filter (fun a => decide (a.liquidityClass = c))) :
    orderedByClasses cls l' = orderedByClasses cls l := by
  induction cls with
  | nil => rfl
  | cons c rest ih =>
    simp only [orderedByClasses, List.map_cons, List.flatten_cons]
    rw [h c (List.mem_cons_self _ _)]
    have := ih fun c' hc' => h c' (List.mem_cons_of_mem _ hc')
    simp only [orderedByClasses] at this
    rw [this]

/-- The source's nested class loop refines the spec's single
priority-ordered pass: viewed through `orderedByClasses`, both compute
the same sales and (up to the final `Math.max(0, ·)` clamp) the same
remaining deficit. -/
theorem liquidateClasses_spec (rates : RateTable) (cls : List String) (hnd : cls.Nodup)
    (rem : ℚ) (l : List Asset) :
    (liquidateClasses rates cls rem l).map (fun p => (p.1, orderedByClasses cls p.2))
      = (specSellInOrder rates rem (orderedByClasses cls l)).map (fun p => (max 0 p.1, p.2)) := by
  induction cls generalizing rem l with
  | nil =>
    simp [liquidateClasses, orderedByClasses, specSellInOrder, Except.map]
  | cons c rest ih =>
    obtain ⟨hcrest, hndrest⟩ := List.nodup_cons.mp hnd
    have horder : orderedByClasses (c :: rest) l
        = l.filter (fun a => decide (a.liquidityClass = c)) ++ orderedByClasses rest l := by
      simp [orderedByClasses]
    by_cases hrem : rem ≤ 0
    · rw [horder, specSellInOrder_nonpos rates rem _ hrem]
      simp only [liquidateClasses, if_pos hrem, Except.map]
      rw [horder]
    · rw [horder, specSellInOrder_append]
      rw [← sellClass_filter_spec rates c rem l]
      simp only [liquidateClasses, if_neg hrem]
      cases hs : sellClass rates c rem l with
      | error e => rfl
      | ok p =>
        obtain ⟨r', l'⟩ := p
        simp only [Except.map]
        have hordrest : orderedByClasses rest l = orderedByClasses rest l' :=
          (orderedByClasses_congr rest l l' fun c' hc' =>
            sellClass_preserves_other rates c rem l r' l' hs c'
              (fun hx => hcrest (hx ▸ hc'))).symm
        rw [hordrest]
        have hIH := ih hndrest r' l'
        cases hLC : liquidateClasses rates rest r' l' with
        | error e =>
          rw [hLC] at hIH
          cases hS : specSellInOrder rates r' (orderedByClasses rest l') with
          | error e2 =>
            rw [hS] at hIH
            simp only [Except.map] at hIH
            cases hIH
            rfl
          | ok p2 =>
            rw [hS] at hIH
            simp only [Except.map] at hIH
            exact absurd hIH (by simp)
        | ok p2 =>
          obtain ⟨r2, out⟩ := p2
          rw [hLC] at hIH
          cases hS : specSellInOrder rates r' (orderedByClasses rest l') with
          | error e2 =>
            rw [hS] at hIH
            simp only [Except.map] at hIH
            exact absurd hIH (by simp)
          | ok p3 =>
            obtain ⟨r3, out3⟩ := p3
            rw [hS] at hIH
            simp only [Except.map, Except.ok.injEq, Prod.mk.injEq] at hIH
            obtain ⟨hr, hout⟩ := hIH
            simp only [Except.map, Except.ok.injEq, Prod.mk.injEq]
            constructor
            · exact hr
            · have hcout : out.filter (fun a => decide (a.liquidityClass = c))
                  = l'.filter (fun a => decide (a.liquidityClass = c)) :=
                liquidateClasses_preserves_other rates rest r' l' r2 out c hcrest hLC
            -- orderedByClasses (c :: rest) out = filter c out ++ orderedByClasses rest out
              rw [show orderedByClasses (c :: rest) out
                  = out.filter (fun a => decide (a.liquidityClass = c))
                    ++ orderedByClasses rest out by simp [orderedByClasses]]
              rw [hcout, hout]

/-! ### Lock-blindness of the waterfall (claim C1)

`liquidateForDeficit` takes no current date and never calls
`isAssetLocked`; erasing every `lockedUntil` field provably cannot change
what it sells. -/

/-- Erase all `lockedUntil` fields. -/
def stripLocks (assets : List Asset) : List Asset :=
  assets.map fun a => { a with lockedUntil := none }

theorem sellClass_stripLocks (rates : RateTable) (cls : String) (rem : ℚ) (l : List Asset) :
    sellClass rates cls rem (stripLocks l)
      = (sellClass rates cls rem l).map fun p => (p.1, stripLocks p.2) := by
  induction l generalizing rem with
  | nil => rfl
  | cons a rest ih =>
    have hcons : stripLocks (a :: rest) = { a with lockedUntil := none } :: stripLocks rest := by
      simp [stripLocks]
    rw [hcons]
    by_cases ha : a.liquidityClass = cls
    · by_cases hrem : rem ≤ 0
      · simp only [sellClass, if_pos ha, if_pos hrem, Except.map]
        rw [← hcons]
      · simp only [sellClass, if_pos ha, if_neg hrem]
        cases hc : convert rates (min a.amount rem) a.currency "USD" with
        | error e => rfl
        | ok pbp =>
          dsimp only
          rw [ih]
          cases hs : sellClass rates cls (rem - pbp * (1 - liquidationPenalty cls)) rest with
          | error e => rfl
          | ok p =>
            obtain ⟨r1, l1a⟩ := p
            simp [stripLocks, Except.map]
    · simp only [sellClass, if_neg ha]
      rw [ih]
      cases hs : sellClass rates cls rem rest with
      | error e => rfl
      | ok p =>
        obtain ⟨r1, l1a⟩ := p
        simp [stripLocks, Except.map]

theorem liquidateClasses_stripLocks (rates : RateTable) (cls : List String) (rem : ℚ)
    (l : List Asset) :
    liquidateClasses rates cls rem (stripLocks l)
      = (liquidateClasses rates cls rem l).map fun p => (p.1, stripLocks p.2) := by
  induction cls generalizing rem l with
  | nil => rfl
  | cons c rest ih =>
    by_cases hrem : rem ≤ 0
    · simp [liquidateClasses, if_pos hrem, Except.map]
    · simp only [liquidateClasses, if_neg hrem]
      rw [sellClass_stripLocks]
      cases hs : sellClass rates c rem l with
      | error e => rfl
      | ok p =>
        obtain ⟨r1, l1a⟩ := p
        simp only [Except.map]
        exact ih r1 l1a

/-- The asset used in the counterexample to claim C1: a `liquid` USD
asset of quantity 400, locked until 2100-01-01 (epoch ms). -/
def c1LockedAsset : Asset :=
  { id := "k1", name := "locked cash", amount := 400, currency := "USD",
    volatility := 0, liquidityClass := "liquid", lockedUntil := some 4102444800000 }

/-- Claim C1 counterexample: with a 2026 current date the asset is
locked (`isAssetLocked` is true), yet `liquidateForDeficit` sells 50
units from it — its returned quantity drops from 400 to 350 and its
proceeds cover the whole 50-dollar deficit — so locked assets are not
excluded from the sellable pool. -/
theorem liquidate_sells_locked_asset_cex :
    isAssetLocked c1LockedAsset 1760000000000 = true
    ∧ liquidateForDeficit defaultRates [c1LockedAsset] 50
        = .ok (0, [{ c1LockedAsset with amount := 350 }])
    ∧ ({ c1LockedAsset with amount := 350 } : Asset).amount ≠ c1LockedAsset.amount := by
  refine ⟨by decide, ?_, by norm_num [c1LockedAsset]⟩
  norm_num +decide [liquidateForDeficit, liquidateClasses, liquidityOrder, sellClass, deepCopy,
    convert, jsToFixed, c1LockedAsset, liquidationPenalty]

/-- Claim C1 (amended): `liquidateForDeficit` ignores lock status
entirely — it takes no current date and never consults `lockedUntil`, so
its remaining deficit and every sold quantity are invariant under
arbitrary changes to the assets' `lockedUntil` fields, and a locked
asset is sold exactly like an unlocked one. -/
theorem liquidate_ignores_locks (rates : RateTable) (assets : List Asset) (d : ℚ) :
    liquidateForDeficit rates (stripLocks assets) d
      = (liquidateForDeficit rates assets d).map fun p => (p.1, stripLocks p.2) := by
  unfold liquidateForDeficit
  rw [deepCopy_eq, deepCopy_eq]
  exact liquidateClasses_stripLocks rates liquidityOrder d assets

/-! ### Priority order, penalties and early stop (claim C2) -/

/-- The `liquid` $400 asset of the spec's liquidation scenario. -/
def c2AssetLiquid : Asset :=
  { id := "s1", name := "savings", amount := 400, currency := "USD",
    volatility := 1 / 10, liquidityClass := "liquid" }

/-- The `volatile` $1000 asset of the spec's liquidation scenario. -/
def c2AssetVolatile : Asset :=
  { id := "s2", name := "stock", amount := 1000, currency := "USD",
    volatility := 3 / 10, liquidityClass := "volatile" }

/-- Claim C2: (1) for every rate table, asset list and deficit, the
source's waterfall equals the spec's single pass over the assets in
strict priority order `liquid → yield → volatile → illiquid` (array
order within a class), selling `min(amount, remaining)` per asset,
applying the penalty table `{liquid 0%, yield 2%, volatile 5%,
illiquid 10%}` to the USD proceeds, and stopping as soon as the
remaining deficit is `≤ 0`; and (2) in the spec's scenario — a $1,000
deficit against a liquid $400 and a volatile $1000 USD asset — the
liquid asset is fully drained ($400 proceeds, no penalty), then $600 of
the volatile asset is sold for $570 net, leaving
`remainingDeficit = 30`. -/
theorem liquidate_priority_penalties_scenario :
    (∀ (rates : RateTable) (assets : List Asset) (deficitAmount : ℚ),
      (liquidateForDeficit rates assets deficitAmount).map
          (fun p => (p.1, assetsInPriorityOrder p.2))
        = (specSellInOrder rates deficitAmount (assetsInPriorityOrder assets)).map
            fun p => (max 0 p.1, p.2))
    ∧ liquidateForDeficit defaultRates [c2AssetLiquid, c2AssetVolatile] 1000
        = .ok (30, [{ c2AssetLiquid with amount := 0 }, { c2AssetVolatile with amount := 400 }]) := by
  constructor
  · intro rates assets deficitAmount
    unfold liquidateForDeficit
    rw [deepCopy_eq]
    exact liquidateClasses_spec rates liquidityOrder (by decide) deficitAmount assets
  · norm_num +decide [liquidateForDeficit, liquidateClasses, liquidityOrder, sellClass, deepCopy,
      convert, jsToFixed, c2AssetLiquid, c2AssetVolatile, liquidationPenalty]

/-! ### Non-negative quantities and non-mutation (claim C3) -/

/-- Claim C3: on any asset list with (per the data model) non-negative
quantities, a successful `liquidateForDeficit` returns only non-negative
quantities, and the caller's input list is untouched — the function
works on the `JSON` deep copy, which is structurally identical to the
input, so the caller's collection survives the call unchanged. -/
theorem liquidate_nonneg_and_nonmutating (rates : RateTable) (assets : List Asset) (d : ℚ)
    (r : ℚ) (out : List Asset) (hin : ∀ a ∈ assets, 0 ≤ a.amount)
    (h : liquidateForDeficit rates assets d = .ok (r, out)) :
    (∀ a ∈ out, 0 ≤ a.amount) ∧ deepCopy assets = assets := by
  refine ⟨?_, deepCopy_eq assets⟩
  have hin' : ∀ a ∈ deepCopy assets, 0 ≤ a.amount := by
    rw [deepCopy_eq]; exact hin
  exact liquidateClasses_nonneg rates liquidityOrder d (deepCopy assets) r out hin' h

/-- Witness for C3 at the spec's own scenario inputs. -/
theorem liquidate_nonneg_and_nonmutating_witness :
    (∀ a ∈ [c2AssetLiquid, c2AssetVolatile], 0 ≤ a.amount)
    ∧ ((∀ a ∈ [{ c2AssetLiquid with amount := 0 }, { c2AssetVolatile with amount := 400 }],
          0 ≤ a.amount)
        ∧ deepCopy [c2AssetLiquid, c2AssetVolatile] = [c2AssetLiquid, c2AssetVolatile]) := by
  refine ⟨by norm_num [c2AssetLiquid, c2AssetVolatile], ?_⟩
  exact liquidate_nonneg_and_nonmutating defaultRates [c2AssetLiquid, c2AssetVolatile] 1000
    30 [{ c2AssetLiquid with amount := 0 }, { c2AssetVolatile with amount := 400 }]
    (by norm_num [c2AssetLiquid, c2AssetVolatile])
    (by norm_num +decide [liquidateForDeficit, liquidateClasses, liquidityOrder, sellClass,
      deepCopy, convert, jsToFixed, c2AssetLiquid, c2AssetVolatile, liquidationPenalty])

/-! ### The remaining deficit is clamped at zero (claim C10) -/

/-- Claim C10: whatever `liquidateForDeficit` successfully returns, the
remaining deficit is non-negative — the final `Math.max(0, ·)` clamps an
overshoot (for instance from a conversion rate above 1) to `0`, and any
surplus proceeds are discarded rather than returned as a negative
deficit. -/
theorem liquidate_remaining_deficit_nonneg (rates : RateTable) (assets : List Asset)
    (d : ℚ) (r : ℚ) (out : List Asset)
    (h : liquidateForDeficit rates assets d = .ok (r, out)) : 0 ≤ r :=
  liquidateClasses_ok_nonneg rates liquidityOrder d (deepCopy assets) r out h

/-- A liquid EUR asset: converting to USD uses the reciprocal of
`USD/EUR = 0.92`, a rate above 1, so selling `min(amount, remaining)`
units overshoots the deficit. -/
def c10AssetEUR : Asset :=
  { id := "e1", name := "euro cash", amount := 100, currency := "EUR",
    volatility := 0, liquidityClass := "liquid" }

/-- Witness for C10 at an overshooting input: selling 50 EUR yields
about $54.35, overshooting the $50 deficit, and the returned remaining
deficit is clamped to `0`. -/
theorem liquidate_remaining_deficit_nonneg_witness :
    liquidateForDeficit defaultRates [c10AssetEUR] 50
        = .ok (0, [{ c10AssetEUR with amount := 50 }])
    ∧ (0 : ℚ) ≤ 0 := by
  have hres : liquidateForDeficit defaultRates [c10AssetEUR] 50
      = .ok (0, [{ c10AssetEUR with amount := 50 }]) := by
    norm_num +decide [liquidateForDeficit, liquidateClasses, liquidityOrder, sellClass, deepCopy,
      convert, c10AssetEUR, liquidationPenalty, pairKey, defaultRates, List.lookup]
    simp only [String.reduceAppend, String.reduceBEq]
    norm_num [jsToFixed]
  exact ⟨hres,
    liquidate_remaining_deficit_nonneg defaultRates [c10AssetEUR] 50 0
      [{ c10AssetEUR with amount := 50 }] hres⟩

/-! ### Revaluation determinism and non-negativity (claim C4) -/

/-- `jsToFixed` preserves non-negativity. -/
theorem jsToFixed_nonneg (f : ℕ) (q : ℚ) (hq : 0 ≤ q) : 0 ≤ jsToFixed f q := by
  rw [jsToFixed, if_neg (not_lt.mpr hq)]
  apply div_nonneg
  · exact_mod_cast Int.le_floor.mpr (by positivity)
  · positivity

/-- Closed form of the revaluation loop: the `i`-th output asset is the
`i`-th input asset shocked by the `i`-th generator draw from the loop's
starting state. -/
theorem revalueGo_getElem (st : ℤ × ℤ) (l : List Asset) (i : ℕ) :
    (revalueGo st l)[i]? = (l[i]?).map fun a =>
      { a with amount := jsToFixed 6 (max 0 (a.amount *
          (1 + ((mwcNext (mwcIter i st)).1 * a.volatility * 2 - a.volatility)))) } := by
  induction l generalizing st i with
  | nil => simp [revalueGo]
  | cons a rest ih =>
    cases i with
    | zero => simp [revalueGo, mwcIter]
    | succ n =>
      have hstep : mwcIter (n + 1) st = mwcIter n (mwcNext st).2 := rfl
      simp only [revalueGo, List.getElem?_cons_succ, hstep]
      exact ih (mwcNext st).2 n

/-- Claim C4: `revalueAssets` is deterministic — it is a pure function
of the asset list and the seed, whose `i`-th output is exactly the
`i`-th input shocked by the `i`-th draw of the seeded generator
(`shock = draw * volatility * 2 - volatility`, one draw per asset in
array order), so rerunning with the same seed and input reproduces
identical output — and every revalued amount is non-negative (the new
amount is `max(0, ·)` rounded to 6 decimals). -/
theorem revalue_deterministic_nonneg (assets : List Asset) (seed : ℤ) :
    revalueAssets assets seed = revalueAssets assets seed
    ∧ (∀ i : ℕ, (revalueAssets assets seed)[i]? = (assets[i]?).map fun a =>
        { a with amount := jsToFixed 6 (max 0 (a.amount *
            (1 + (rngOut seed i * a.volatility * 2 - a.volatility)))) })
    ∧ ∀ a ∈ revalueAssets assets seed, 0 ≤ a.amount := by
  refine ⟨rfl, fun i => revalueGo_getElem (987654321, seed) assets i, ?_⟩
  intro a ha
  unfold revalueAssets at ha
  obtain ⟨i, hi, hget⟩ := List.getElem_of_mem ha
  have h := revalueGo_getElem (987654321, seed) assets i
  rw [List.getElem?_eq_getElem hi, hget] at h
  cases hai : assets[i]? with
  | none => rw [hai] at h; exact absurd h (by simp)
  | some b =>
    rw [hai] at h
    simp only [Option.map_some', Option.some.injEq] at h
    rw [h]
    exact jsToFixed_nonneg 6 _ (le_max_left 0 _)

/-- A zero-volatility asset for the C4 witness: its shock vanishes, so
the revalued list is computable without evaluating the generator. -/
def c4Asset : Asset :=
  { id := "c1", name := "stablecoin", amount := 7, currency := "USD",
    volatility := 0, liquidityClass := "liquid" }

/-- Witness for C4: determinism at a concrete input, and the concrete
output asset (amount 7, untouched by a zero-volatility shock) is
non-negative by the theorem. -/
theorem revalue_deterministic_nonneg_witness :
    revalueAssets [c4Asset] 42 = revalueAssets [c4Asset] 42
    ∧ 0 ≤ ({ c4Asset with amount := 7 } : Asset).amount := by
  have hres : revalueAssets [c4Asset] 42 = [{ c4Asset with amount := 7 }] := by
    norm_num [revalueAssets, revalueGo, c4Asset, jsToFixed]
  have hmem : ({ c4Asset with amount := 7 } : Asset) ∈ revalueAssets [c4Asset] 42 := by
    rw [hres]
    exact List.mem_singleton_self _
  exact ⟨(revalue_deterministic_nonneg [c4Asset] 42).1,
    (revalue_deterministic_nonneg [c4Asset] 42).2.2 _ hmem⟩

/-! ### Conversion results are rounded, not truncated (claim C6) -/

/-- Modelled from the spec: truncation toward zero to 6 decimal places
("all results are truncated (not rounded-to-nearest)"), for comparison
with the source's `toFixed`-based `truncateToPrecision`. -/
def truncate6 (q : ℚ) : ℚ :=
  if q < 0 then -(((⌊-q * 1000000⌋ : ℤ) : ℚ) / 1000000)
  else ((⌊q * 1000000⌋ : ℤ) : ℚ) / 1000000

/-- A quotient of an integer by `10 ^ f` is a fixed point of
`jsToFixed f`. -/
theorem jsToFixed_intCast_div (f : ℕ) (n : ℤ) :
    jsToFixed f ((n : ℚ) / 10 ^ f) = (n : ℚ) / 10 ^ f := by
  have hpow : (0 : ℚ) < 10 ^ f := by positivity
  by_cases hn : ((n : ℚ) / 10 ^ f) < 0
  · rw [jsToFixed, if_pos hn]
    have harg : -((n : ℚ) / 10 ^ f) * 10 ^ f + 1 / 2 = ((-n : ℤ) : ℚ) + 1 / 2 := by
      push_cast
      field_simp
      ring
    rw [harg, Int.floor_int_add]
    norm_num
  · rw [jsToFixed, if_neg hn]
    have harg : ((n : ℚ) / 10 ^ f) * 10 ^ f + 1 / 2 = (n : ℚ) + 1 / 2 := by
      field_simp
    rw [harg, Int.floor_int_add]
    norm_num

/-- `jsToFixed` is idempotent: a value already rounded to `f` decimals
is left unchanged. -/
theorem jsToFixed_idem (f : ℕ) (q : ℚ) : jsToFixed f (jsToFixed f q) = jsToFixed f q := by
  by_cases hq : q < 0
  · rw [show jsToFixed f q = (((-⌊-q * 10 ^ f + 1 / 2⌋ : ℤ) : ℚ) / 10 ^ f) by
      rw [jsToFixed, if_pos hq]; push_cast; ring]
    exact jsToFixed_intCast_div f _
  · rw [show jsToFixed f q = (((⌊q * 10 ^ f + 1 / 2⌋ : ℤ) : ℚ) / 10 ^ f) by
      rw [jsToFixed, if_neg hq]]
    exact jsToFixed_intCast_div f _

/-- Claim C6 counterexample: `convert(1.9999999, "USD", "USD")` returns
`2` — `toFixed(6)` rounds to nearest — whereas truncation to 6 decimal
places yields `1.999999`; so `convert` results are not truncated. -/
theorem convert_rounds_not_truncates_cex :
    convert [] (19999999 / 10000000) "USD" "USD" = .ok 2
    ∧ truncate6 (19999999 / 10000000) = 1999999 / 1000000
    ∧ (2 : ℚ) ≠ 1999999 / 1000000 := by
  refine ⟨?_, ?_, by norm_num⟩
  · norm_num +decide [convert, jsToFixed]
  · norm_num [truncate6]

/-- Claim C6 (amended): for every amount and currency,
`convert(x, A, A)` performs no rate lookup (the result is independent of
the rate table) and returns `x` rounded — via `toFixed`,
round-half-away-from-zero, not truncated — to 6 decimal places; and
every successful `convert` result is such a 6-decimal rounded value
(it is a fixed point of the same rounding). -/
theorem convert_identity_rounded :
    (∀ (rates : RateTable) (x : ℚ) (currency : String),
        convert rates x currency currency = .ok (jsToFixed 6 x))
    ∧ ∀ (rates : RateTable) (x : ℚ) (fromCurrency toCurrency : String) (v : ℚ),
        convert rates x fromCurrency toCurrency = .ok v → jsToFixed 6 v = v := by
  constructor
  · intro rates x c
    simp [convert]
  · intro rates x fc tc v h
    rw [convert] at h
    split at h
    · cases h
      exact jsToFixed_idem 6 x
    · split at h
      · cases h
        exact jsToFixed_idem 6 _
      · split at h
        · cases h
          exact jsToFixed_idem 6 _
        · split at h
          · cases h
            exact jsToFixed_idem 6 _
          · exact absurd h (by simp)

/-- Witness for C6 at a concrete conversion: the identity call returns a
value (`2`) that the theorem certifies to be rounding-stable. -/
theorem convert_identity_rounded_witness :
    convert [] (19999999 / 10000000) "USD" "USD" = .ok 2 ∧ jsToFixed 6 (2 : ℚ) = 2 := by
  have h : convert [] (19999999 / 10000000) "USD" "USD" = .ok 2 := by
    norm_num +decide [convert, jsToFixed]
  exact ⟨h, convert_identity_rounded.2 [] (19999999 / 10000000) "USD" "USD" 2 h⟩

/-! ### RateNotFound exactly when no path exists (claim C5) -/

/-- The one-hop search returns nothing exactly when no intermediary in
the list gives both forward legs (intermediaries equal to an endpoint
are skipped). -/
theorem tryIntermediaries_none_iff (rates : RateTable) (fc tc : String) (L : List String) :
    tryIntermediaries rates fc tc L = none ↔
      ∀ inter ∈ L, inter ≠ fc → inter ≠ tc →
        (List.lookup (pairKey fc inter) rates = none
         ∨ List.lookup (pairKey inter tc) rates = none) := by
  induction L with
  | nil => simp [tryIntermediaries]
  | cons i rest ih =>
    simp only [List.forall_mem_cons]
    by_cases hif : i = fc ∨ i = tc
    · rw [tryIntermediaries, if_pos hif, ih]
      constructor
      · intro h
        refine ⟨fun h1 h2 => ?_, h⟩
        rcases hif with hx | hx
        · exact absurd hx h1
        · exact absurd hx h2
      · exact fun h => h.2
    · push_neg at hif
      rw [tryIntermediaries, if_neg (by tauto)]
      cases hA : List.lookup (pairKey fc i) rates with
      | none =>
        cases hB : List.lookup (pairKey i tc) rates with
        | none =>
          rw [ih]
          simp [hif.1, hif.2, hA]
        | some r2 =>
          rw [ih]
          simp [hif.1, hif.2, hA]
      | some r1 =>
        cases hB : List.lookup (pairKey i tc) rates with
        | none =>
          rw [ih]
          simp [hif.1, hif.2, hA, hB]
        | some r2 =>
          simp [hif.1, hif.2, hA, hB]

/-- The rate table of the spec's currency scenario: only
`USD/EUR = 0.92` and `EUR/PKR = 302.7`. -/
def c5Rates : RateTable := [("USD/EUR", 92 / 100), ("EUR/PKR", 3027 / 10)]

/-- Claim C5: for distinct currencies, `convert` fails with the
`RateNotFound` error naming the requested pair exactly when there is no
direct rate, no reverse rate, and no one-hop path with both forward
legs through an intermediary in `{USD, EUR}` distinct from both
endpoints; with only `USD/EUR = 0.92` and `EUR/PKR = 302.7` in the
table, `convert(100, "USD", "PKR")` resolves through EUR to
`100 * 0.92 * 302.7` truncated to 6 decimals (exact here), while
`convert(100, "PKR", "GBP")` fails with `RateNotFound`. -/
theorem convert_rate_not_found_iff :
    (∀ (rates : RateTable) (amount : ℚ) (fromCurrency toCurrency : String),
      fromCurrency ≠ toCurrency →
      (convert rates amount fromCurrency toCurrency
          = .error ("No exchange rate found for " ++ pairKey fromCurrency toCurrency)
        ↔ List.lookup (pairKey fromCurrency toCurrency) rates = none
          ∧ List.lookup (pairKey toCurrency fromCurrency) rates = none
          ∧ ∀ inter ∈ ["USD", "EUR"], inter ≠ fromCurrency → inter ≠ toCurrency →
              (List.lookup (pairKey fromCurrency inter) rates = none
               ∨ List.lookup (pairKey inter toCurrency) rates = none)))
    ∧ convert c5Rates 100 "USD" "PKR" = .ok (truncate6 (100 * (92 / 100) * (3027 / 10)))
    ∧ convert c5Rates 100 "PKR" "GBP"
        = .error ("No exchange rate found for " ++ pairKey "PKR" "GBP") := by
  refine ⟨?_, ?_, ?_⟩
  · intro rates amount fc tc hne
    rw [convert, if_neg hne]
    cases h1 : List.lookup (pairKey fc tc) rates with
    | some r => simp [h1]
    | none =>
      cases h2 : List.lookup (pairKey tc fc) rates with
      | some r => simp [h2]
      | none =>
        cases hI : getIndirectRate rates fc tc with
        | some r =>
          simp only []
          constructor
          · intro h
            exact absurd h (by simp)
          · rintro ⟨-, -, hall⟩
            have hnone := (tryIntermediaries_none_iff rates fc tc ["USD", "EUR"]).mpr hall
            rw [getIndirectRate] at hI
            rw [hnone] at hI
            exact absurd hI (by simp)
        | none =>
          simp only [true_and]
          constructor
          · intro h
            exact (tryIntermediaries_none_iff rates fc tc ["USD", "EUR"]).mp hI
          · intro h
            trivial
  · norm_num +decide [convert, pairKey, c5Rates, List.lookup, getIndirectRate,
      tryIntermediaries]
    simp only [String.reduceAppend, String.reduceBEq, String.reduceEq]
    norm_num [jsToFixed, truncate6]
  · norm_num +decide [convert, pairKey, c5Rates, List.lookup, getIndirectRate,
      tryIntermediaries]
    simp only [String.reduceAppend, String.reduceBEq, String.reduceEq]

/-- Witness for C5: the no-path instance of the equivalence, discharged
at the scenario's `PKR → GBP` request. -/
theorem convert_rate_not_found_iff_witness :
    convert c5Rates 100 "PKR" "GBP"
      = .error ("No exchange rate found for " ++ pairKey "PKR" "GBP") :=
  (convert_rate_not_found_iff.1 c5Rates 100 "PKR" "GBP" (by decide)).mpr (by decide)

/-! ## RiskEngine (`risk.ts`)

A trajectory is a `List WalletState`.  `t[t.length - 1]` on an empty
array yields `undefined` and reading `.balance` from it throws a
`TypeError`; both the thrown error and a propagated `undefined` element
are modelled as `none`.  A `NaN` produced by a zero-denominator division
is the `none` of an `Option ℚ` field (`jsDivQ`). -/

/-- The per-trajectory `forEach` of `calculateCollapseProbability`:
threads `(hasCollapsed, collapsedDay, recoveredAfter)` through the days
exactly as the source mutates its three locals (collapse is recorded
before the recovery test of the same day). -/
def trajScan (t : List WalletState) : Bool × ℤ × Bool :=
  t.enum.foldl
    (fun acc p =>
      let (hasCollapsed, collapsedDay, recoveredAfter) := acc
      let (dayIndex, state) := p
      let hasCollapsed' := hasCollapsed || decide (state.balance < 0)
      let collapsedDay' :=
        if state.balance < 0 && !hasCollapsed then (dayIndex : ℤ) else collapsedDay
      let recoveredAfter' :=
        recoveredAfter || (hasCollapsed' && decide (collapsedDay' > -1) && decide (state.balance > 0))
      (hasCollapsed', collapsedDay', recoveredAfter'))
    (false, -1, false)

/-- The outer `trajectories.forEach`: collects `collapseTimings` (one
entry per collapsing trajectory, pushed in trajectory order) and counts
recovered runs. -/
def riskScan (trajectories : List (List WalletState)) : List ℤ × ℕ :=
  trajectories.foldl
    (fun acc t =>
      let (hasCollapsed, collapsedDay, recoveredAfter) := trajScan t
      (acc.1 ++ (if hasCollapsed then [collapsedDay] else []),
       acc.2 + (if recoveredAfter then 1 else 0)))
    ([], 0)

/-- `RiskEngine.calculateMaxDrawdown` body for one trajectory, threading
the running worst drawdown; `trajectory[0].balance` crashes on an empty
trajectory. -/
def drawdownTraj (worst : ℚ) (t : List WalletState) : Option ℚ := do
  let first ← t.head?
  let r := t.foldl
    (fun (acc : ℚ × ℚ × ℚ) state =>
      let peak := if state.balance > acc.1 then state.balance else acc.1
      let trough := if state.balance < acc.2.1 then state.balance else acc.2.1
      let drawdown := if peak > 0 then (peak - trough) / peak else 0
      (peak, trough, if drawdown > acc.2.2 then drawdown else acc.2.2))
    (first.balance, first.balance, worst)
  pure r.2.2

/-- `RiskEngine.calculateMaxDrawdown`. -/
def calculateMaxDrawdown (trajectories : List (List WalletState)) : Option ℚ := do
  let worstDrawdown ← trajectories.foldlM drawdownTraj (0 : ℚ)
  pure (jsToFixed 2 (worstDrawdown * 100))

/-- The `RiskMetrics` record.  `collapseProbability` is `Option ℚ`
because `collapseTimings.length / trajectories.length` is `0/0 = NaN` on
an empty ensemble. -/
structure RiskMetrics where
  collapseProbability : Option ℚ
  collapseTimings : List ℤ
  averageCollapsDay : ℚ
  recoveryRate : ℚ
  maxDrawdown : ℚ
deriving DecidableEq

/-- `RiskEngine.calculateCollapseProbability`. -/
def calculateCollapseProbability (trajectories : List (List WalletState)) :
    Option RiskMetrics := do
  let (collapseTimings, recoveredCount) := riskScan trajectories
  let collapseProbability :=
    (jsDivQ (collapseTimings.length : ℚ) (trajectories.length : ℚ)).map (jsToFixed 4)
  let averageCollapsDay : ℚ :=
    if collapseTimings.length > 0 then
      ((collapseTimings.map (fun d => (d : ℚ))).sum) / (collapseTimings.length : ℚ)
    else -1
  let recoveryRate : ℚ :=
    if collapseTimings.length > 0 then (recoveredCount : ℚ) / (collapseTimings.length : ℚ)
    else 1
  let maxDrawdown ← calculateMaxDrawdown trajectories
  pure
    { collapseProbability := collapseProbability
      collapseTimings := collapseTimings
      averageCollapsDay := if averageCollapsDay > 0 then (jsRound averageCollapsDay : ℚ) else 0
      recoveryRate := jsToFixed 4 recoveryRate
      maxDrawdown := maxDrawdown }

/-- The `trajectories.map((t) => t[t.length - 1].balance)` prelude shared
by `calculateVaR`, `calculateCVaR` and `generateStatistics`: crashes
(`none`) at the first zero-day trajectory. -/
def finalBalancesOf : List (List WalletState) → Option (List ℚ)
  | [] => some []
  | t :: rest =>
    match t.getLast? with
    | none => none
    | some s => (finalBalancesOf rest).map fun bs => s.balance :: bs

/-- `[...xs].sort((a, b) => a - b)`: a comparison sort ascending.  For
numeric values a stable comparison sort has a unique result — the sorted
permutation — so `mergeSort` models it exactly. -/
def sortQ (l : List ℚ) : List ℚ := l.mergeSort (fun a b => a ≤ b)

/-- `RiskEngine.calculateVaR`: the sorted index is
`Math.floor(sorted.length * percentile)`, clamped below by
`Math.max(0, index)`; an index past the end yields `undefined` (`none`). -/
def calculateVaR (trajectories : List (List WalletState)) (percentile : ℚ) : Option ℚ := do
  let finalBalances ← finalBalancesOf trajectories
  let sorted := sortQ finalBalances
  let index : ℤ := ⌊(sorted.length : ℚ) * percentile⌋
  sorted[(max 0 index).toNat]?

/-- `Array.prototype.slice(0, e)`: a negative end counts from the end of
the array, clamped at `0`. -/
def jsSliceTo (l : List ℚ) (e : ℤ) : List ℚ :=
  if e < 0 then l.take ((l.length : ℤ) + e).toNat else l.take e.toNat

/-- `RiskEngine.calculateCVaR`.  The outer `Option` is the crash channel
(empty trajectory); the inner `Option ℚ` is the `NaN` of the final
division when `worstValues` is empty. -/
def calculateCVaR (trajectories : List (List WalletState)) (percentile : ℚ) :
    Option (Option ℚ) := do
  let finalBalances ← finalBalancesOf trajectories
  let sorted := sortQ finalBalances
  let cutoffIndex : ℤ := ⌊(sorted.length : ℚ) * percentile⌋
  let worstValues := jsSliceTo sorted (cutoffIndex + 1)
  pure (jsDivQ worstValues.sum (worstValues.length : ℚ))

/-! ### Sortedness facts about `sortQ` -/

theorem sortQ_sorted (l : List ℚ) : List.Sorted (· ≤ ·) (sortQ l) := by
  have h := @List.sorted_mergeSort ℚ (fun a b : ℚ => a ≤ b)
    (fun a b c hab hbc => by
      simp only [decide_eq_true_eq] at *
      exact le_trans hab hbc)
    (fun a b => by
      simp only [Bool.or_eq_true, decide_eq_true_eq]
      exact le_total a b) l
  exact h.imp fun hab => by simpa using hab

theorem sortQ_length (l : List ℚ) : (sortQ l).length = l.length :=
  List.length_mergeSort l

/-- Indexing a sorted list is monotone. -/
theorem sortQ_get_mono (l : List ℚ) (i j : ℕ) (hij : i ≤ j) (hj : j < (sortQ l).length) :
    (sortQ l).get ⟨i, lt_of_le_of_lt hij hj⟩ ≤ (sortQ l).get ⟨j, hj⟩ := by
  rcases lt_or_eq_of_le hij with hlt | heq
  · exact (sortQ_sorted l).rel_get_of_lt (by exact_mod_cast hlt)
  · subst heq
    exact le_refl _

/-- On an ensemble of non-empty trajectories the final balances all
exist, one per trajectory. -/
theorem finalBalancesOf_isSome (ts : List (List WalletState)) (hall : ∀ t ∈ ts, t ≠ []) :
    ∃ bs, finalBalancesOf ts = some bs ∧ bs.length = ts.length := by
  induction ts with
  | nil => exact ⟨[], rfl, rfl⟩
  | cons t rest ih =>
    obtain ⟨bs, hbs, hlen⟩ := ih fun u hu => hall u (List.mem_cons_of_mem _ hu)
    have ht : t.getLast?.isSome = true :=
      List.getLast?_isSome.mpr (hall t (List.mem_cons_self _ _))
    obtain ⟨s, hs⟩ := Option.isSome_iff_exists.mp ht
    refine ⟨s.balance :: bs, ?_, by simp [hlen]⟩
    simp [finalBalancesOf, hs, hbs]

/-! ### Out-of-range percentiles are not rejected (claims C7 and C9) -/

/-- A one-day wallet trajectory with the given balance, used by the
concrete risk-engine inputs. -/
def mkWallet (b : ℚ) : WalletState :=
  { date := 0, balance := b, assets := [], liabilities := [], creditScore := 700,
    dayNumber := 0, history := [] }

/-- Claim C7 counterexample: on a one-trajectory ensemble with final
balance 5, `calculateVaR` at the out-of-range percentile `-0.5`
silently clamps the index to `0` and returns `5`, and `calculateCVaR`
at percentile `2` returns the mean `5`; neither fails with any error. -/
theorem var_clamps_percentile_cex :
    calculateVaR [[mkWallet 5]] (-1 / 2) = some 5
    ∧ calculateCVaR [[mkWallet 5]] 2 = some (some 5) := by
  constructor
  · norm_num +decide [calculateVaR, finalBalancesOf, sortQ, mkWallet]
  · norm_num +decide [calculateCVaR, finalBalancesOf, sortQ, jsSliceTo, jsDivQ, mkWallet]
    simp

/-- Claim C7 (amended): the VaR and CVaR operations perform no
percentile validation and raise no error on arguments outside `[0, 1]`:
for `p < 0` the sorted index is silently clamped to `0`, so
`calculateVaR` returns the smallest final balance; for `p ≥ 1` the index
runs past the end, so `calculateVaR` yields no value (`undefined`) while
`calculateCVaR` silently averages the entire balance list and returns a
value. -/
theorem var_cvar_no_percentile_validation (ts : List (List WalletState)) (p : ℚ)
    (hne : ts ≠ []) (hall : ∀ t ∈ ts, t ≠ []) :
    (p < 0 → calculateVaR ts p = (finalBalancesOf ts).bind fun bs => (sortQ bs).head?)
    ∧ (1 ≤ p → calculateVaR ts p = none ∧ ∃ v, calculateCVaR ts p = some (some v)) := by
  obtain ⟨bs, hbs, hlen⟩ := finalBalancesOf_isSome ts hall
  have hn : 0 < bs.length := hlen ▸ List.length_pos.mpr hne
  have hm : 0 < (sortQ bs).length := by rw [sortQ_length]; exact hn
  constructor
  · intro hp
    have hidx : ⌊((sortQ bs).length : ℚ) * p⌋ < 0 := by
      rw [show (0 : ℤ) = ⌊(0 : ℚ)⌋ by norm_num]
      rw [Int.floor_lt]
      exact mul_neg_of_pos_of_neg (by exact_mod_cast hm) hp
    simp only [calculateVaR, hbs, Option.bind_eq_bind, Option.some_bind, List.head?_eq_getElem?]
    rw [max_eq_left (le_of_lt hidx)]
    rfl
  · intro hp
    have hidx : ((sortQ bs).length : ℤ) ≤ ⌊((sortQ bs).length : ℚ) * p⌋ := by
      rw [Int.le_floor]
      push_cast
      nlinarith [(by exact_mod_cast hm : (0 : ℚ) < ((sortQ bs).length : ℚ))]
    have hidx0 : (0 : ℤ) ≤ ⌊((sortQ bs).length : ℚ) * p⌋ :=
      le_trans (by exact_mod_cast Nat.zero_le _) hidx
    constructor
    · simp only [calculateVaR, hbs, Option.bind_eq_bind, Option.some_bind]
      rw [max_eq_right hidx0]
      exact List.getElem?_eq_none (by omega)
    · refine ⟨(sortQ bs).sum / ((sortQ bs).length : ℚ), ?_⟩
      simp only [calculateCVaR, hbs, Option.bind_eq_bind, Option.some_bind, jsSliceTo]
      rw [if_neg (by omega)]
      rw [List.take_of_length_le (by omega)]
      simp only [jsDivQ, Option.pure_def]
      rw [if_neg (by exact_mod_cast hm.ne')]

/-- Witness for C7 at percentile `2` on a one-trajectory ensemble. -/
theorem var_cvar_no_percentile_validation_witness :
    calculateVaR [[mkWallet 5]] 2 = none
    ∧ ∃ v, calculateCVaR [[mkWallet 5]] 2 = some (some v) :=
  (var_cvar_no_percentile_validation [[mkWallet 5]] 2 (by simp) (by simp)).2 (by norm_num)

/-- Claim C9 counterexample: on a non-empty ensemble of non-empty
trajectories with `p1 = 0 < p2 = 1`, both in `[0, 1]`,
`calculateVaR` at `p2 = 1` indexes `sorted[n]`, past the end of the
array, and yields no value at all, so `VaR(p1) ≤ VaR(p2)` fails. -/
theorem var_monotonicity_boundary_cex :
    calculateVaR [[mkWallet 5]] 0 = some 5 ∧ calculateVaR [[mkWallet 5]] 1 = none := by
  constructor
  · norm_num +decide [calculateVaR, finalBalancesOf, sortQ, mkWallet]
  · norm_num +decide [calculateVaR, finalBalancesOf, sortQ, mkWallet]

/-- Claim C9 (amended): for every non-empty ensemble of non-empty
trajectories and percentiles `0 ≤ p1 < p2 < 1` (so that both sorted
indices `floor(n * p)` are in range), VaR is monotone:
`VaR(p1) ≤ VaR(p2)`. -/
theorem var_monotone_in_range (ts : List (List WalletState)) (p1 p2 : ℚ)
    (hne : ts ≠ []) (hall : ∀ t ∈ ts, t ≠ [])
    (h0 : 0 ≤ p1) (h12 : p1 < p2) (h2 : p2 < 1) :
    ∃ v1 v2, calculateVaR ts p1 = some v1 ∧ calculateVaR ts p2 = some v2 ∧ v1 ≤ v2 := by
  obtain ⟨bs, hbs, hlen⟩ := finalBalancesOf_isSome ts hall
  have hn : 0 < bs.length := hlen ▸ List.length_pos.mpr hne
  have hm : 0 < (sortQ bs).length := by rw [sortQ_length]; exact hn
  set m := (sortQ bs).length with hmdef
  have hfloor0 : (0 : ℤ) ≤ ⌊(m : ℚ) * p1⌋ := by
    rw [show (0 : ℤ) = ⌊(0 : ℚ)⌋ by norm_num]
    exact Int.floor_le_floor (by positivity)
  have hfloor0' : (0 : ℤ) ≤ ⌊(m : ℚ) * p2⌋ :=
    le_trans hfloor0 (Int.floor_le_floor (by nlinarith [(by exact_mod_cast hm : (0 : ℚ) < (m : ℚ))]))
  have hmono : ⌊(m : ℚ) * p1⌋ ≤ ⌊(m : ℚ) * p2⌋ :=
    Int.floor_le_floor (by nlinarith [(by exact_mod_cast hm : (0 : ℚ) < (m : ℚ))])
  have hlt2 : ⌊(m : ℚ) * p2⌋ < (m : ℤ) := by
    rw [Int.floor_lt]
    push_cast
    nlinarith [(by exact_mod_cast hm : (0 : ℚ) < (m : ℚ))]
  have hi2 : (max 0 ⌊(m : ℚ) * p2⌋).toNat < m := by
    rw [max_eq_right hfloor0']
    exact (Int.toNat_lt hfloor0').mpr hlt2
  have hi1 : (max 0 ⌊(m : ℚ) * p1⌋).toNat < m :=
    lt_of_le_of_lt (by rw [max_eq_right hfloor0, max_eq_right hfloor0']; exact Int.toNat_le_toNat hmono) hi2
  refine ⟨(sortQ bs).get ⟨(max 0 ⌊(m : ℚ) * p1⌋).toNat, hi1⟩,
          (sortQ bs).get ⟨(max 0 ⌊(m : ℚ) * p2⌋).toNat, hi2⟩, ?_, ?_, ?_⟩
  · simp only [calculateVaR, hbs, Option.bind_eq_bind, Option.some_bind]
    exact List.getElem?_eq_getElem hi1
  · simp only [calculateVaR, hbs, Option.bind_eq_bind, Option.some_bind]
    exact List.getElem?_eq_getElem hi2
  · refine sortQ_get_mono bs _ _ ?_ hi2
    rw [max_eq_right hfloor0, max_eq_right hfloor0']
    exact Int.toNat_le_toNat hmono

/-- Witness for C9 (amended) on a concrete ensemble and percentiles. -/
theorem var_monotone_in_range_witness :
    ∃ v1 v2, calculateVaR [[mkWallet 5]] 0 = some v1
      ∧ calculateVaR [[mkWallet 5]] (1 / 2) = some v2 ∧ v1 ≤ v2 :=
  var_monotone_in_range [[mkWallet 5]] 0 (1 / 2) (by simp) (by simp)
    (by norm_num) (by norm_num) (by norm_num)

/-! ## StatsEngine (`stats.ts`)

`Math.sqrt` is an external floating-point primitive, modelled as a
parameter `sqrtF : ℚ → ℚ`; the VibeEngine (explicitly outside the
specified core: it ends in `Math.random`-driven pet-flavour text) is
modelled as a parameter `vibeF` producing an arbitrary vibe value.  No
theorem below depends on either parameter.

A field holds `Option ℚ` where the source can store `NaN` without
crashing (it is only ever fed back to `toFixed`/`parseFloat`, which map
`NaN` to `NaN`); an `undefined` array element crashes the function at
its `.toFixed` call, so those accesses are crash-points (`←`). -/

structure BalanceStats where
  mean : Option ℚ
  median : ℚ
  percentile5 : ℚ
  percentile95 : ℚ
  min : ℚ
  max : ℚ
  stdDev : Option ℚ
deriving DecidableEq

/-- `StatsEngine.calculateBalanceStats`.  On an empty list the source
computes `mean = NaN`, `median = sorted[0] = undefined`, and crashes at
`median.toFixed(2)`; the model crashes at the same reads. -/
def calculateBalanceStats (sqrtF : ℚ → ℚ) (balances : List ℚ) : Option BalanceStats := do
  let sorted := sortQ balances
  let mean := jsDivQ balances.sum (balances.length : ℚ)
  let variance :=
    mean.bind fun m =>
      jsDivQ (balances.foldl (fun sum b => sum + (b - m) ^ 2) 0) (balances.length : ℚ)
  let stdDev := variance.map sqrtF
  let median ← sorted[(⌊(sorted.length : ℚ) / 2⌋).toNat]?
  let percentile5 ← sorted[(⌊(sorted.length : ℚ) * (5 / 100)⌋).toNat]?
  let percentile95 ← sorted[(⌊(sorted.length : ℚ) * (95 / 100)⌋).toNat]?
  let minBalance ← sorted[0]?
  let maxBalance ← sorted[sorted.length - 1]?
  pure
    { mean := mean.map (jsToFixed 2)
      median := jsToFixed 2 median
      percentile5 := jsToFixed 2 percentile5
      percentile95 := jsToFixed 2 percentile95
      min := jsToFixed 2 minBalance
      max := jsToFixed 2 maxBalance
      stdDev := stdDev.map (jsToFixed 2) }

/-- `finalDistribution` of `calculateCreditStats`, flattened into five
fields (tier percentages, `NaN` on an empty score list). -/
structure CreditStats where
  mean : Option ℚ
  evolution : List ℚ
  excellent : Option ℚ
  good : Option ℚ
  fair : Option ℚ
  poor : Option ℚ
  bad : Option ℚ
deriving DecidableEq

/-- `StatsEngine.calculateCreditStats`.  Never crashes: every array
access is guarded, and its divisions only produce `NaN` fields. -/
def calculateCreditStats (trajectories : List (List WalletState))
    (finalCreditScores : List ℚ) : CreditStats :=
  let mean := jsDivQ finalCreditScores.sum (finalCreditScores.length : ℚ)
  let distribution :=
    finalCreditScores.foldl
      (fun (d : ℕ × ℕ × ℕ × ℕ × ℕ) score =>
        if score ≥ 750 then (d.1 + 1, d.2.1, d.2.2.1, d.2.2.2.1, d.2.2.2.2)
        else if score ≥ 670 then (d.1, d.2.1 + 1, d.2.2.1, d.2.2.2.1, d.2.2.2.2)
        else if score ≥ 580 then (d.1, d.2.1, d.2.2.1 + 1, d.2.2.2.1, d.2.2.2.2)
        else if score ≥ 450 then (d.1, d.2.1, d.2.2.1, d.2.2.2.1 + 1, d.2.2.2.2)
        else (d.1, d.2.1, d.2.2.1, d.2.2.2.1, d.2.2.2.2 + 1))
      (0, 0, 0, 0, 0)
  let total : ℚ := (finalCreditScores.length : ℚ)
  let pct := fun (count : ℕ) => (jsDivQ (count : ℚ) total).map fun r => jsToFixed 2 (r * 100)
  let evolution :=
    match trajectories with
    | [] => []
    | t :: _ => t.map (·.creditScore)
  { mean := mean.map (jsToFixed 2)
    evolution := evolution
    excellent := pct distribution.1
    good := pct distribution.2.1
    fair := pct distribution.2.2.1
    poor := pct distribution.2.2.2.1
    bad := pct distribution.2.2.2.2 }

structure AssetStats where
  nav : Option ℚ
  averageNAV : Option ℚ
  liquidityRatio : Option ℚ
deriving DecidableEq

/-- The `trajectory[trajectory.length - 1]` reads of
`calculateAssetStats`, in trajectory order. -/
def finalStatesOf : List (List WalletState) → Option (List WalletState)
  | [] => some []
  | t :: rest =>
    match t.getLast? with
    | none => none
    | some s => (finalStatesOf rest).map fun l => s :: l

/-- `StatsEngine.calculateAssetStats`.  `trajectory[trajectory.length-1]`
crashes on a zero-day trajectory; on an empty ensemble the averages are
`0/0 = NaN`. -/
def calculateAssetStats (trajectories : List (List WalletState)) : Option AssetStats := do
  let finalStates ← finalStatesOf trajectories
  let totals := finalStates.foldl
    (fun (acc : ℚ × ℚ) finalState =>
      let nav := finalState.assets.foldl (fun sum asset => sum + asset.amount) 0
      let liquidAssets :=
        (finalState.assets.filter (fun a => decide (a.liquidityClass = "liquid"))).foldl
          (fun sum a => sum + a.amount) 0
      let ratio := if nav > 0 then liquidAssets / nav else 0
      (acc.1 + nav, acc.2 + ratio))
    (0, 0)
  let averageNAV := jsDivQ totals.1 (trajectories.length : ℚ)
  let averageLiquidityRatio := jsDivQ totals.2 (trajectories.length : ℚ)
  pure
    { nav := averageNAV.map (jsToFixed 2)
      averageNAV := averageNAV.map (jsToFixed 2)
      liquidityRatio := averageLiquidityRatio.map fun r => jsToFixed 4 (min r 1) }

/-- `StatisticsOutput`, with the vibe component abstract (see the section
comment). -/
structure StatisticsOutput (V : Type) where
  finalBalance : BalanceStats
  creditScore : CreditStats
  assets : AssetStats
  risk : RiskMetrics
  vibe : V

/-- The `trajectories.map((t) => t[t.length - 1].creditScore)` prelude
of `generateStatistics`. -/
def finalCreditScoresOf : List (List WalletState) → Option (List ℚ)
  | [] => some []
  | t :: rest =>
    match t.getLast? with
    | none => none
    | some s => (finalCreditScoresOf rest).map fun cs => s.creditScore :: cs

/-- `StatsEngine.generateStatistics`, in the source's evaluation order
(the `finalBalances` maps first, then the return object's properties
top to bottom). -/
def generateStatistics {V : Type} (vibeF : List (List WalletState) → Option V)
    (sqrtF : ℚ → ℚ) (trajectories : List (List WalletState)) :
    Option (StatisticsOutput V) := do
  let finalBalances ← finalBalancesOf trajectories
  let finalCreditScores ← finalCreditScoresOf trajectories
  let finalBalance ← calculateBalanceStats sqrtF finalBalances
  let creditScore := calculateCreditStats trajectories finalCreditScores
  let assets ← calculateAssetStats trajectories
  let risk ← calculateCollapseProbability trajectories
  let vibe ← vibeF trajectories
  pure
    { finalBalance := finalBalance
      creditScore := creditScore
      assets := assets
      risk := risk
      vibe := vibe }

/-! ### Empty ensembles and zero-day trajectories (claim C8) -/

/-- Claim C8 counterexample: on the empty ensemble,
`calculateCollapseProbability` returns normally — with
`collapseProbability = 0/0 = NaN` (modelled `none`), a 100% recovery
rate and zeroed fields — and `calculateVaR` performs an empty-sequence
percentile lookup yielding `undefined` (`none`); neither fails with an
`InvalidInput` error (no such error exists anywhere in the code). -/
theorem collapse_prob_empty_nan_cex :
    calculateCollapseProbability ([] : List (List WalletState))
        = some { collapseProbability := none, collapseTimings := [], averageCollapsDay := 0,
                 recoveryRate := 1, maxDrawdown := 0 }
    ∧ calculateVaR ([] : List (List WalletState)) (5 / 100) = none := by
  constructor
  · norm_num +decide [calculateCollapseProbability, riskScan, calculateMaxDrawdown,
      jsDivQ, jsToFixed]
  · norm_num +decide [calculateVaR, finalBalancesOf, sortQ]

/-- Claim C8 (amended): empty-ensemble and zero-day-trajectory inputs
are not validated and raise no `InvalidInput` error: on an empty
ensemble `calculateCollapseProbability` returns a metrics record whose
collapse probability is the `NaN` of `0/0` while `calculateVaR` (at any
percentile) and `generateStatistics` produce no value; on an ensemble
containing a zero-day trajectory, `calculateVaR`,
`calculateCollapseProbability` and `generateStatistics` all crash on an
out-of-bounds element access (`TypeError`), modelled as `none`. -/
theorem empty_input_no_invalid_input :
    calculateCollapseProbability ([] : List (List WalletState))
        = some { collapseProbability := none, collapseTimings := [], averageCollapsDay := 0,
                 recoveryRate := 1, maxDrawdown := 0 }
    ∧ (∀ p : ℚ, calculateVaR ([] : List (List WalletState)) p = none)
    ∧ (∀ p : ℚ, calculateVaR ([[]] : List (List WalletState)) p = none)
    ∧ calculateCollapseProbability ([[]] : List (List WalletState)) = none
    ∧ ∀ (V : Type) (vibeF : List (List WalletState) → Option V) (sqrtF : ℚ → ℚ),
        generateStatistics vibeF sqrtF [] = none
        ∧ generateStatistics vibeF sqrtF [[]] = none := by
  refine ⟨?_, fun p => ?_, fun p => ?_, ?_, fun V vibeF sqrtF => ⟨?_, ?_⟩⟩
  · norm_num +decide [calculateCollapseProbability, riskScan, calculateMaxDrawdown,
      jsDivQ, jsToFixed]
  · norm_num +decide [calculateVaR, finalBalancesOf, sortQ]
  · norm_num +decide [calculateVaR, finalBalancesOf]
  · norm_num +decide [calculateCollapseProbability, riskScan, calculateMaxDrawdown,
      drawdownTraj, jsDivQ, jsToFixed]
  · norm_num +decide [generateStatistics, finalBalancesOf, finalCreditScoresOf,
      calculateBalanceStats, sortQ, jsDivQ]
  · norm_num +decide [generateStatistics, finalBalancesOf]

end FinancialMgr
